import Mathlib

/-!
Verification of the tezsign framed transport broker, Tenderbake payload
validator, Base58Check codec and watermark discipline against a shallow
embedding of the Go sources.

Bytes are modelled as `Nat` (values below 256 in the Go program); byte
strings as `List Nat`.  Go slices become lists, Go maps become association
lists, Go channels of capacity one become explicit slot records, and time
stamps become integers.  Fallible Go functions return `Except`.
-/

deriving instance DecidableEq for Except

namespace Tezsign

/-- Byte lookup, `l[i]`; all uses in the embedding are guarded by length
checks mirroring the Go bounds checks, so the default 0 is never reached
on the paths the theorems speak about. -/
def byteAt (l : List Nat) (i : Nat) : Nat := l.getD i 0

/-- `Except` result is an error. -/
def isError : Except ε α → Bool
  | .error _ => true
  | .ok _ => false

/-- `Except` result is a success. -/
def isOk : Except ε α → Bool
  | .error _ => false
  | .ok _ => true

/-! ## Constants (broker/constants.go) -/

def KB : Nat := 1024
def MB : Nat := KB * 1024

/-- Max stash buffer before dropping oldest bytes. -/
def DEFAULT_BROKER_CAPACITY : Nat := 50 * MB

/-- Largest allowed payload (excluding header): half of the broker capacity. -/
def MAX_MESSAGE_PAYLOAD : Nat := DEFAULT_BROKER_CAPACITY / 2

/-- Size of the temporary read buffer per syscall. -/
def DEFAULT_READ_BUFFER : Nat := 256 * KB

/-- MagicByte marking the start of a frame header. -/
def MagicByte : Nat := 0x56

/-- Header: magic(1) + type(1) + id(16) + size(4) + parity(1). -/
def HeaderLen : Nat := 23

/-! ## Frame codec (broker/wire.go) -/

inductive WireErr
  | invalidHeaderLength
  | invalidHeaderBadMagic
  | invalidHeaderParity
  | encodeHeaderPayloadLarge
  | noPayloadFound
  | invalidPayload
  | invalidPayloadSize
  | incompletePayload
deriving DecidableEq, Repr

structure Header where
  magic : Nat
  type : Nat
  id : List Nat
  size : Nat
deriving DecidableEq, Repr

/-- Little-endian 4-byte encoding of a `uint32` (binary.LittleEndian.PutUint32). -/
def putUint32LE (n : Nat) : List Nat :=
  [n % 256, n / 256 % 256, n / 65536 % 256, n / 16777216 % 256]

/-- binary.LittleEndian.Uint32 over four bytes. -/
def getUint32LE (b0 b1 b2 b3 : Nat) : Nat :=
  b0 + 256 * b1 + 65536 * b2 + 16777216 * b3

/-- XOR of a byte string (body of headerParity). -/
def xorBytes (l : List Nat) : Nat := l.foldl Nat.xor 0

/-- headerParity: parity over bytes[0:22], XOR of all. -/
def headerParity (bytes22 : List Nat) : Except WireErr Nat :=
  if bytes22.length ≠ HeaderLen - 1 then .error .invalidHeaderParity
  else .ok (xorBytes bytes22)

/-- The Go code ignores the (impossible) length error of headerParity:
`p, _ := headerParity(src[:22])` leaves `p = 0` on that unreachable path. -/
def parityOr0 (bytes22 : List Nat) : Nat :=
  match headerParity bytes22 with | .ok v => v | .error _ => 0

/-- DecodeHeader validates magic and parity and returns the parsed header. -/
def DecodeHeader (src : List Nat) : Except WireErr Header :=
  if src.length < HeaderLen then .error .invalidHeaderLength
  else if byteAt src 0 ≠ MagicByte then .error .invalidHeaderBadMagic
  else
    let p := parityOr0 (src.take 22)
    if byteAt src 22 ≠ p then .error .invalidHeaderBadMagic
    else .ok { magic := byteAt src 0
             , type := byteAt src 1
             , id := (src.drop 2).take 16
             , size := getUint32LE (byteAt src 18) (byteAt src 19) (byteAt src 20) (byteAt src 21) }

/-- The frame laid out by newMessage's success path:
magic, type, 16-byte id, little-endian size, parity byte, payload. -/
def encodeFrame (msgType : Nat) (id payload : List Nat) : List Nat :=
  let head22 := MagicByte :: msgType :: (id ++ putUint32LE payload.length)
  head22 ++ xorBytes head22 :: payload

/-- newMessage builds header+payload frame bytes.  The Go code also guards
`cap(dst) < requiredSize` (unreachable: `make` returns capacity ≥ length)
and `payloadLen < 0` (unreachable: `len` is non-negative), so only the
`int(^uint32(0))` bound remains. -/
def newMessage (msgType : Nat) (id payload : List Nat) : Except WireErr (List Nat) :=
  let payloadLen := payload.length
  if payloadLen > 4294967295 then .error .encodeHeaderPayloadLarge
  else .ok (encodeFrame msgType id payload)

/-! ## Stash (broker/stash.go) -/

/-- stash.Write: if the buffer would exceed capacity, drop the oldest
bytes first (`buf.Next(drop)`), then append the data.  `List.drop`
saturates exactly like `bytes.Buffer.Next` when `drop` exceeds the
buffered length. -/
def stashWrite (capacity : Nat) (buf data : List Nat) : List Nat :=
  if buf.length + data.length > capacity then
    (buf.drop (buf.length + data.length - capacity)) ++ data
  else buf ++ data

inductive ReadResult
  | payload (id : List Nat) (t : Nat) (data : List Nat)
  | readErr (e : WireErr)
deriving DecidableEq, Repr

/-- stash.ReadPayload: best-effort extraction of the next well-formed frame.
Returns the result together with the remaining buffer contents.
The no-magic branch `if drop := len - 22; drop > 0` is the saturating
`List.drop (len - 22)`. -/
def ReadPayload (buf : List Nat) : ReadResult × List Nat :=
  match buf.findIdx? (· == MagicByte) with
  | none =>
      (.readErr .noPayloadFound, buf.drop (buf.length - (HeaderLen - 1)))
  | some idx =>
      let data := buf.drop idx
      match DecodeHeader data with
      | .error _ => (.readErr .invalidPayload, data.drop 1)
      | .ok h =>
          if h.size > MAX_MESSAGE_PAYLOAD then
            (.readErr .invalidPayloadSize, data.drop HeaderLen)
          else if data.length < HeaderLen + h.size then
            (.readErr .incompletePayload, data)
          else
            (.payload h.id h.type ((data.drop HeaderLen).take h.size),
             data.drop (HeaderLen + h.size))

/-! ## Tenderbake payload validator (keychain) -/

inductive SIGN_KIND
  | UNSPECIFIED
  | BLOCK
  | PREATTESTATION
  | ATTESTATION
deriving DecidableEq, Repr

inductive KeychainErr
  | emptyPayload
  | outOfBounds
  | negativeLevel
  | negativeRound
  | negativeFitnessLen
  | unsupportedOperation
deriving DecidableEq, Repr

/-- `int32(binary.BigEndian.Uint32(raw[off:]))`: four big-endian bytes read
as an unsigned 32-bit value, reinterpreted as a signed int32. -/
def readInt32BE (raw : List Nat) (off : Nat) : Int :=
  let u := byteAt raw off * 16777216 + byteAt raw (off + 1) * 65536
    + byteAt raw (off + 2) * 256 + byteAt raw (off + 3)
  if u < 2147483648 then (u : Int) else (u : Int) - 4294967296

/-- Offsets of the block branch: level at 1+4, fitness length at
1+4+4+1+32+8+1+32 = 83, minimum length 83+4 = 87 bytes. -/
def blockLevelOff : Nat := 1 + 4
def blockFitnessOff : Nat := 1 + 4 + 4 + 1 + 32 + 8 + 1 + 32
def blockMinLen : Nat := blockFitnessOff + 4

/-- Offsets of the preattestation/attestation branch: level at 1+4+32+1 = 38,
round at 42, minimum length 46 bytes. -/
def attLevelOff : Nat := 1 + 4 + 32 + 1
def attRoundOff : Nat := attLevelOff + 4
def attMinLen : Nat := attRoundOff + 4

/-- DecodeAndValidateSignPayload parses Tenderbake payloads and extracts
(kind, level, round) together with the exact watermarked bytes to sign. -/
def DecodeAndValidateSignPayload (raw : List Nat) :
    Except KeychainErr (SIGN_KIND × Nat × Nat × List Nat) :=
  if raw.length < 1 then .error .emptyPayload
  else match byteAt raw 0 with
  | 0x11 =>
      if raw.length < blockMinLen then .error .outOfBounds
      else
        let levelI32 := readInt32BE raw blockLevelOff
        if levelI32 < 0 then .error .negativeLevel
        else
          let fitnessLenI32 := readInt32BE raw blockFitnessOff
          if fitnessLenI32 < 0 then .error .negativeFitnessLen
          else
            let roundOff := blockFitnessOff + fitnessLenI32.toNat
            if roundOff + 4 > raw.length then .error .outOfBounds
            else
              let roundI32 := readInt32BE raw roundOff
              if roundI32 < 0 then .error .negativeRound
              else .ok (.BLOCK, levelI32.toNat, roundI32.toNat, raw)
  | 0x12 =>
      if raw.length < attMinLen then .error .outOfBounds
      else
        let levelI32 := readInt32BE raw attLevelOff
        if levelI32 < 0 then .error .negativeLevel
        else
          let roundI32 := readInt32BE raw attRoundOff
          if roundI32 < 0 then .error .negativeRound
          else .ok (.PREATTESTATION, levelI32.toNat, roundI32.toNat, raw)
  | 0x13 =>
      if raw.length < attMinLen then .error .outOfBounds
      else
        let levelI32 := readInt32BE raw attLevelOff
        if levelI32 < 0 then .error .negativeLevel
        else
          let roundI32 := readInt32BE raw attRoundOff
          if roundI32 < 0 then .error .negativeRound
          else .ok (.ATTESTATION, levelI32.toNat, roundI32.toNat, raw)
  | _ => .error .unsupportedOperation

/-! ## Broker state machine (part of src/unnamed/part_005)

The broker's concurrent loops are embedded as pure transition functions on
an explicit state.  Channels of capacity one (waiter delivery slots) are
slot records held in a channel heap: the caller keeps its reference even
after the table entry is deleted, exactly as a Go channel outlives its
`sync.Map` entry.  Writes to the bounded write channel are modelled by
appending structured frames to `outFrames`; the boolean `enq` tells whether
the non-blocking select managed to enqueue (false models a full channel
together with a cancelled context).  The frame type discriminator is the
inductive `PayloadType` because the numeric values of accept/retry are
not fixed by the sources. -/

abbrev MsgId := List Nat

inductive PayloadType
  | unknown
  | request
  | response
  | acceptRequest
  | retry
deriving DecidableEq, Repr

/-- A capacity-1 response channel: `buffered` is its single slot, `closed`
records whether `close` was ever called on it (the broker sources never
close waiter channels). -/
structure Slot where
  buffered : Option (List Nat)
  closed : Bool
deriving DecidableEq, Repr

/-- waiterMap: entries pair a message id with a channel reference and the
creation time; the channel heap `chans` owns the slot state. -/
structure WaiterTable where
  entries : List (MsgId × Nat × Int)
  chans : List (Nat × Slot)
  nextRef : Nat
deriving DecidableEq, Repr

/-- NewWaiter: allocate a fresh capacity-1 channel and store the entry with
its creation time (the fresh random id is a parameter). -/
def WaiterTable.newWaiter (wt : WaiterTable) (id : MsgId) (now : Int) : WaiterTable :=
  { entries := (id, wt.nextRef, now) :: wt.entries
  , chans := (wt.nextRef, { buffered := none, closed := false }) :: wt.chans
  , nextRef := wt.nextRef + 1 }

/-- waiterMap.Delete: remove the entry; the channel object survives on the
caller side. -/
def WaiterTable.delete (wt : WaiterTable) (id : MsgId) : WaiterTable :=
  { wt with entries := wt.entries.filter (fun e => !(e.1 == id)) }

/-- waiterMap.LoadAndDelete: return the channel reference and remove the
entry. -/
def WaiterTable.loadAndDelete (wt : WaiterTable) (id : MsgId) : Option Nat × WaiterTable :=
  match wt.entries.find? (fun e => e.1 == id) with
  | none => (none, wt)
  | some e => (some e.2.1, wt.delete id)

/-- waiterMap.ReapStale: remove waiters older than the given TTL and count
them.  Only the map entries are deleted; the channel heap is untouched
(the source has no `close` call). -/
def WaiterTable.ReapStale (wt : WaiterTable) (ttl now : Int) : Nat × WaiterTable :=
  ((wt.entries.filter (fun e => decide (now - e.2.2 > ttl))).length,
   { wt with entries := wt.entries.filter (fun e => !(decide (now - e.2.2 > ttl))) })

/-- Non-blocking delivery into a capacity-1 channel: fill the slot when it
is empty, otherwise drop the response (warn in the source). -/
def deliverChan (chans : List (Nat × Slot)) (ref : Nat) (payload : List Nat) :
    List (Nat × Slot) :=
  chans.map (fun c =>
    if c.1 == ref then
      match c.2.buffered with
      | none => (c.1, { c.2 with buffered := some payload })
      | some _ => c
    else c)

/-- requestMap.Store (Go map assignment: replace or add). -/
def rmStore (m : List (MsgId × α)) (id : MsgId) (v : α) : List (MsgId × α) :=
  (id, v) :: m.filter (fun e => !(e.1 == id))

/-- requestMap.Delete. -/
def rmDelete (m : List (MsgId × α)) (id : MsgId) : List (MsgId × α) :=
  m.filter (fun e => !(e.1 == id))

/-- requestMap.HasRequest. -/
def rmHasId (m : List MsgId) (id : MsgId) : Bool := m.any (fun e => e == id)

/-- The handler outcome: the broker reads `resp, _ := handler(...)` — a Go
error return is discarded and only the (possibly nil) response bytes are
used — or the handler panics. -/
inductive HandlerRet
  | ret (resp : List Nat)
  | panics (msg : String)
deriving DecidableEq, Repr

abbrev Handler := List Nat → HandlerRet

structure Work where
  id : MsgId
  payloadType : PayloadType
  payload : List Nat
deriving DecidableEq, Repr

structure Broker where
  waiters : WaiterTable
  processing : List MsgId
  unconfirmed : List (MsgId × List Nat)
  outFrames : List (PayloadType × MsgId × List Nat)
deriving DecidableEq, Repr

inductive ReqError
  | payloadTooLarge
  | payloadExceedsMax
  | writeFrameFailed
  | ctxErr
  | eofErr
deriving DecidableEq, Repr

/-- The select at the end of Broker.Request: the slot is filled, the
caller's context is done, or the broker's context is done. -/
inductive SelectOutcome
  | gotResponse (resp : List Nat)
  | ctxDone
  | brokerDone
deriving DecidableEq, Repr

/-- writeFrame at the state-machine level: newMessage only fails for
payloads over 2^32 − 1 (then no frame is enqueued and the error is
returned); otherwise the non-blocking select either enqueues the frame on
the write channel (`enq = true`) or returns ctx.Err()/io.EOF without
enqueuing. -/
def writeFrameS (b : Broker) (t : PayloadType) (id : MsgId) (payload : List Nat)
    (enq : Bool) : Broker × Bool :=
  if payload.length > 4294967295 then (b, false)
  else if enq then ({ b with outFrames := b.outFrames ++ [(t, id, payload)] }, true)
  else (b, false)

/-- handleWork processes a single work item.  The request branch has no
recover: a handler panic propagates out (modelled by `Except.error`); the
errors returned by writeFrame are ignored, exactly as in the source. -/
def handleWork (h : Handler) (enq : Bool) (b : Broker) (w : Work) : Except String Broker :=
  match w.payloadType with
  | .response =>
      match b.waiters.loadAndDelete w.id with
      | (some ref, wt) =>
          .ok { b with waiters := { wt with chans := deliverChan wt.chans ref w.payload } }
      | (none, wt) => .ok { b with waiters := wt }
  | .request =>
      if rmHasId b.processing w.id then .ok b
      else
        let b1 := { b with processing := w.id :: b.processing }
        let b2 := (writeFrameS b1 .acceptRequest w.id [] enq).1
        -- a handler is always installed: Broker.New refuses a nil handler
        match h w.payload with
        | .panics m => .error m
        | .ret resp =>
            let b3 := { b2 with processing := b2.processing.filter (fun i => !(i == w.id)) }
            .ok (writeFrameS b3 .response w.id resp enq).1
  | .acceptRequest =>
      .ok { b with unconfirmed := rmDelete b.unconfirmed w.id }
  | .retry =>
      .ok (b.unconfirmed.foldl (fun acc e => (writeFrameS acc .request e.1 e.2 enq).1) b)
  | .unknown => .ok b

/-- Broker.Request: bounds checks, waiter registration, unconfirmed store,
request frame enqueue, then the delivery select.  `freshId` stands for the
16 random bytes of NewMessageID, `now` for the creation timestamp. -/
def Request (b : Broker) (payload : List Nat) (freshId : MsgId) (now : Int)
    (enq : Bool) (sel : SelectOutcome) : Broker × Except ReqError (List Nat) :=
  if payload.length > 4294967295 then (b, .error .payloadTooLarge)
  else if payload.length > MAX_MESSAGE_PAYLOAD then (b, .error .payloadExceedsMax)
  else
    let b1 := { b with
      waiters := b.waiters.newWaiter freshId now
      unconfirmed := rmStore b.unconfirmed freshId payload }
    let s := writeFrameS b1 .request freshId payload enq
    if s.2 then
      match sel with
      | .gotResponse resp => (s.1, .ok resp)
      | .ctxDone =>
          ({ s.1 with
            unconfirmed := rmDelete s.1.unconfirmed freshId
            waiters := s.1.waiters.delete freshId }, .error .ctxErr)
      | .brokerDone =>
          ({ s.1 with
            unconfirmed := rmDelete s.1.unconfirmed freshId
            waiters := s.1.waiters.delete freshId }, .error .eofErr)
    else
      ({ s.1 with waiters := s.1.waiters.delete freshId }, .error .writeFrameFailed)

/-! ## Keychain watermark discipline -/

inductive LockState
  | UNLOCKED
  | LOCKED
  | CORRUPTED
deriving DecidableEq, Repr

structure Watermark where
  level : Nat
  round : Nat
deriving DecidableEq, Repr

/-- Strict lexicographic (level, round) comparison, as a Bool: the spec
requires the new pair strictly greater than the stored watermark. -/
def wmLtB (old new : Watermark) : Bool :=
  decide (old.level < new.level)
    || (decide (old.level = new.level) && decide (old.round < new.round))

/-- Per-key state: lock state and the three per-kind watermarks
(last_block, last_preattestation, last_attestation level+round). -/
structure KeyEntry where
  lockState : LockState
  wmBlock : Watermark
  wmPreattestation : Watermark
  wmAttestation : Watermark
deriving DecidableEq, Repr

/-- The stored watermark of one operation kind.  UNSPECIFIED is unreachable
on successful validation (the validator only returns it with an error);
it is mapped to a constant. -/
def getWM (k : KeyEntry) (kind : SIGN_KIND) : Watermark :=
  match kind with
  | .BLOCK => k.wmBlock
  | .PREATTESTATION => k.wmPreattestation
  | .ATTESTATION => k.wmAttestation
  | .UNSPECIFIED => { level := 0, round := 0 }

/-- Commit a new watermark for one kind (no-op for the unreachable
UNSPECIFIED). -/
def setWM (k : KeyEntry) (kind : SIGN_KIND) (wm : Watermark) : KeyEntry :=
  match kind with
  | .BLOCK => { k with wmBlock := wm }
  | .PREATTESTATION => { k with wmPreattestation := wm }
  | .ATTESTATION => { k with wmAttestation := wm }
  | .UNSPECIFIED => k

/-- Remote keychain errors (src/unnamed/part_007). -/
inductive SignErr
  | keyLocked
  | keyNotFound
  | staleWatermark
  | badPayload
deriving DecidableEq, Repr

inductive SignResult
  | okSig (kind : SIGN_KIND) (level round : Nat) (signedBytes : List Nat)
  | err (e : SignErr)
deriving DecidableEq, Repr

/-- Modelled from the spec: the keychain Sign implementation is not under
src/ (only its error declarations, status accessors and the payload
validator are).  Following spec §4.9: (1) validate the payload with the
embedded validator to obtain (kind, level, round) and the canonical
signed bytes; (2) require the key UNLOCKED; (3) compare (level, round)
lexicographically against the stored per-kind watermark, requiring strict
greater-than — equal or lower fails StaleWatermark; (4) commit the new
watermark before signing; (5) sign.  The BLS signature itself is
abstracted: a success carries the canonical bytes that determine it, and
persistence is assumed to succeed (its failure path only marks the key
CORRUPTED, which refuses further signs like LOCKED does). -/
def signStep (k : KeyEntry) (raw : List Nat) : KeyEntry × SignResult :=
  match DecodeAndValidateSignPayload raw with
  | .error _ => (k, .err .badPayload)
  | .ok (kind, level, round, signedBytes) =>
      if k.lockState = .UNLOCKED then
        if wmLtB (getWM k kind) { level := level, round := round } then
          (setWM k kind { level := level, round := round },
           .okSig kind level round signedBytes)
        else (k, .err .staleWatermark)
      else (k, .err .keyLocked)

/-- Run a sequence of sign attempts, collecting each attempt's outcome. -/
def runSigns (k : KeyEntry) (rs : List (List Nat)) : KeyEntry × List SignResult :=
  match rs with
  | [] => (k, [])
  | r :: rest =>
      let s := signStep k r
      let t := runSigns s.1 rest
      (t.1, s.2 :: t.2)

/-- The (level, round) pairs at which successful signs of one kind occur,
in order. -/
def kindSuccesses (results : List SignResult) (kind : SIGN_KIND) : List (Nat × Nat) :=
  results.filterMap (fun r => match r with
    | .okSig kd l rd _ => if kd = kind then some (l, rd) else none
    | .err _ => none)

/-- Strict lexicographic order on (level, round) pairs. -/
def pairLt (a b : Nat × Nat) : Prop :=
  a.1 < b.1 ∨ (a.1 = b.1 ∧ a.2 < b.2)

/-! ## SHA-256 (crypto/sha256)

Executable embedding of FIPS 180-4 SHA-256, used by doubleSHA256 in the
Base58Check codec.  All words are Nat values below 2^32. -/

namespace SHA256

def M32 : Nat := 4294967296

/-- 32-bit rotate right. -/
def rotr (n x : Nat) : Nat := ((x >>> n) ||| (x <<< (32 - n))) % M32

def add32 (a b : Nat) : Nat := (a + b) % M32

def bigSigma0 (x : Nat) : Nat := rotr 2 x ^^^ rotr 13 x ^^^ rotr 22 x
def bigSigma1 (x : Nat) : Nat := rotr 6 x ^^^ rotr 11 x ^^^ rotr 25 x
def smallSigma0 (x : Nat) : Nat := rotr 7 x ^^^ rotr 18 x ^^^ (x >>> 3)
def smallSigma1 (x : Nat) : Nat := rotr 17 x ^^^ rotr 19 x ^^^ (x >>> 10)

/-- Ch(x,y,z); the complement is XOR with 2^32 − 1 on 32-bit words. -/
def chF (x y z : Nat) : Nat := (x &&& y) ^^^ ((x ^^^ 4294967295) &&& z)

def majF (x y z : Nat) : Nat := (x &&& y) ^^^ (x &&& z) ^^^ (y &&& z)

def K : List Nat :=
  [1116352408, 1899447441, 3049323471, 3921009573, 961987163,
   1508970993, 2453635748, 2870763221, 3624381080, 310598401,
   607225278, 1426881987, 1925078388, 2162078206, 2614888103,
   3248222580, 3835390401, 4022224774, 264347078, 604807628,
   770255983, 1249150122, 1555081692, 1996064986, 2554220882,
   2821834349, 2952996808, 3210313671, 3336571891, 3584528711,
   113926993, 338241895, 666307205, 773529912, 1294757372,
   1396182291, 1695183700, 1986661051, 2177026350, 2456956037,
   2730485921, 2820302411, 3259730800, 3345764771, 3516065817,
   3600352804, 4094571909, 275423344, 430227734, 506948616,
   659060556, 883997877, 958139571, 1322822218, 1537002063,
   1747873779, 1955562222, 2024104815, 2227730452, 2361852424,
   2428436474, 2756734187, 3204031479, 3329325298]

def initH : List Nat :=
  [1779033703, 3144134277, 1013904242, 2773480762,
   1359893119, 2600822924, 528734635, 1541459225]

structure St where
  a : Nat
  b : Nat
  c : Nat
  d : Nat
  e : Nat
  f : Nat
  g : Nat
  h : Nat
deriving DecidableEq, Repr

def roundStep (st : St) (kw : Nat × Nat) : St :=
  let t1 := (st.h + bigSigma1 st.e + chF st.e st.f st.g + kw.1 + kw.2) % M32
  let t2 := (bigSigma0 st.a + majF st.a st.b st.c) % M32
  { a := (t1 + t2) % M32, b := st.a, c := st.b, d := st.c
  , e := (st.d + t1) % M32, f := st.e, g := st.f, h := st.g }

/-- One message-schedule extension step over the reversed (newest-first)
word list: W[i] = σ1(W[i−2]) + W[i−7] + σ0(W[i−15]) + W[i−16] mod 2^32. -/
def extendStep (rev : List Nat) : List Nat :=
  add32 (add32 (smallSigma1 (byteAt rev 1)) (byteAt rev 6))
    (add32 (smallSigma0 (byteAt rev 14)) (byteAt rev 15)) :: rev

def schedule (w16 : List Nat) : List Nat :=
  ((List.range 48).foldl (fun rev _ => extendStep rev) w16.reverse).reverse

def compress (h8 : List Nat) (block : List Nat) : List Nat :=
  let ws := schedule block
  let st0 : St := { a := byteAt h8 0, b := byteAt h8 1, c := byteAt h8 2, d := byteAt h8 3
                  , e := byteAt h8 4, f := byteAt h8 5, g := byteAt h8 6, h := byteAt h8 7 }
  let stf := (K.zip ws).foldl roundStep st0
  [add32 (byteAt h8 0) stf.a, add32 (byteAt h8 1) stf.b, add32 (byteAt h8 2) stf.c,
   add32 (byteAt h8 3) stf.d, add32 (byteAt h8 4) stf.e, add32 (byteAt h8 5) stf.f,
   add32 (byteAt h8 6) stf.g, add32 (byteAt h8 7) stf.h]

/-- Big-endian 4-byte groups to 32-bit words. -/
def toWords : List Nat → List Nat
  | b0 :: b1 :: b2 :: b3 :: rest =>
      (b0 * 16777216 + b1 * 65536 + b2 * 256 + b3) :: toWords rest
  | _ => []

/-- 8-byte big-endian length field. -/
def be8 (n : Nat) : List Nat :=
  [n / 72057594037927936 % 256, n / 281474976710656 % 256, n / 1099511627776 % 256,
   n / 4294967296 % 256, n / 16777216 % 256, n / 65536 % 256, n / 256 % 256, n % 256]

/-- Merkle-Damgard padding: 0x80, zeros to 56 mod 64, bit length. -/
def padMsg (msg : List Nat) : List Nat :=
  msg ++ 0x80 :: (List.replicate ((119 - msg.length % 64) % 64) 0 ++ be8 (8 * msg.length))

/-- Split into 16-word blocks; padded input is always a multiple of 16
words, so the catch-all only sees the empty list. -/
def chunk16 : List Nat → List (List Nat)
  | a0 :: a1 :: a2 :: a3 :: a4 :: a5 :: a6 :: a7 ::
    a8 :: a9 :: a10 :: a11 :: a12 :: a13 :: a14 :: a15 :: rest =>
      [a0, a1, a2, a3, a4, a5, a6, a7, a8, a9, a10, a11, a12, a13, a14, a15]
        :: chunk16 rest
  | _ => []

def wordsToBytesBE : List Nat → List Nat
  | [] => []
  | w :: ws => w / 16777216 % 256 :: w / 65536 % 256 :: w / 256 % 256 :: w % 256
      :: wordsToBytesBE ws

def sha256 (msg : List Nat) : List Nat :=
  wordsToBytesBE ((chunk16 (toWords (padMsg msg))).foldl compress initH)

end SHA256

/-- doubleSHA256 (src/unnamed/part_003). -/
def doubleSHA256 (b : List Nat) : List Nat := SHA256.sha256 (SHA256.sha256 b)

/-! ## Base58 (mr-tron/base58) and Base58Check -/

/-- The Bitcoin Base58 alphabet used by mr-tron/base58. -/
def b58Alphabet : List Char :=
  "123456789ABCDEFGHJKLMNPQRSTUVWXYZabcdefghijkmnopqrstuvwxyz".toList

def b58Digit (c : Char) : Option Nat := b58Alphabet.findIdx? (fun a => a == c)

/-- Minimal big-endian base-256 digits (structural fuel recursion; the
fuel n always suffices since n shrinks by a factor 256 each step). -/
def beDigitsAux : Nat → Nat → List Nat
  | 0, _ => []
  | fuel + 1, n => if n = 0 then [] else beDigitsAux fuel (n / 256) ++ [n % 256]

def natToBytesBE (n : Nat) : List Nat := beDigitsAux n n

/-- base58.Decode: rejects the empty string and invalid digits; leading
ones become leading zero bytes, the rest is the big-endian value of the
base-58 numeral. -/
def base58Decode (s : List Char) : Except String (List Nat) :=
  if s.length = 0 then .error "zero length string"
  else match s.mapM b58Digit with
  | none => .error "invalid base58 digit"
  | some ds =>
      let zcount := (s.takeWhile (fun c => c == '1')).length
      let v := ds.foldl (fun acc d => acc * 58 + d) 0
      .ok (List.replicate zcount 0 ++ natToBytesBE v)

/-- b58CheckDecode (src/unnamed/part_003): enforce minimum length, the
expected prefix, and the 4-byte double-SHA256 checksum. -/
def b58CheckDecode (pfx : List Nat) (s : List Char) : Except String (List Nat) :=
  match base58Decode s with
  | .error e => .error e
  | .ok decoded =>
      if decoded.length < pfx.length + 4 then .error "too short"
      else if decoded.take pfx.length ≠ pfx then .error "prefix mismatch"
      else
        let payload := (decoded.drop pfx.length).take (decoded.length - 4 - pfx.length)
        let check := decoded.drop (decoded.length - 4)
        let exp := (doubleSHA256 (pfx ++ payload)).take 4
        if check ≠ exp then .error "bad checksum"
        else .ok payload

/-- BLsk prefix for 32-byte little-endian BLS12-381 secret scalars. -/
def pfxBLSecretKey : List Nat := [3, 150, 192, 40]

/-- BLS12-381 scalar field order r. -/
def blsScalarR : Nat :=
  0x73EDA753299D7D483339D80809A1D80553BDA402FFFE5BFEFFFFFFFF00000001

def leBytesToNat : List Nat → Nat
  | [] => 0
  | b :: bs => b + 256 * leBytesToNat bs

/-- Modelled from the blst Go binding: SecretKey.FromLEndian loads a
32-byte little-endian scalar and fails on a wrong length or a zero scalar
(the embedding keeps the value modulo r). -/
def skFromLEndian (le : List Nat) : Option Nat :=
  if le.length ≠ 32 then none
  else if leBytesToNat le % blsScalarR = 0 then none
  else some (leBytesToNat le % blsScalarR)

/-- ImportBLSecretKey (src/signer/signer.go): base58-decode, check the
minimum length and the BLsk PREFIX ONLY — the comment in the source reads
"naive check: prefix match (optionally verify checksum yourself)"; the
4-byte checksum is dropped without verification — then load the 32-byte
little-endian scalar. -/
def ImportBLSecretKey (s : List Char) : Except String Nat :=
  match base58Decode s with
  | .error e => .error e
  | .ok raw =>
      if raw.length < 4 + pfxBLSecretKey.length then .error "BLSecretKey too short"
      else
        let n := raw.length - 4
        if raw.take pfxBLSecretKey.length ≠ pfxBLSecretKey then .error "bad BLsk prefix"
        else
          let le := (raw.drop pfxBLSecretKey.length).take (n - pfxBLSecretKey.length)
          if le.length ≠ 32 then .error "BLSecretKey payload must be 32 bytes"
          else match skFromLEndian le with
          | none => .error "invalid scalar"
          | some sk => .ok sk

/-! ## Codec helper lemmas -/

theorem byteAt_cons_zero (a : Nat) (l : List Nat) : byteAt (a :: l) 0 = a := rfl

theorem byteAt_cons_succ (a : Nat) (l : List Nat) (n : Nat) :
    byteAt (a :: l) (n + 1) = byteAt l n := rfl

theorem byteAt_append_left (l₁ l₂ : List Nat) (n : Nat) (h : n < l₁.length) :
    byteAt (l₁ ++ l₂) n = byteAt l₁ n :=
  List.getD_append l₁ l₂ 0 n h

theorem byteAt_append_right (l₁ l₂ : List Nat) (n : Nat) (h : l₁.length ≤ n) :
    byteAt (l₁ ++ l₂) n = byteAt l₂ (n - l₁.length) :=
  List.getD_append_right l₁ l₂ 0 n h

theorem getUint32LE_putUint32LE (n : Nat) (h : n < 4294967296) :
    getUint32LE (byteAt (putUint32LE n) 0) (byteAt (putUint32LE n) 1)
      (byteAt (putUint32LE n) 2) (byteAt (putUint32LE n) 3) = n := by
  simp only [putUint32LE, byteAt, List.getD_cons_zero, List.getD_cons_succ]
  simp only [getUint32LE]
  omega

theorem encodeFrame_length (t : Nat) (id payload : List Nat) (hid : id.length = 16) :
    (encodeFrame t id payload).length = HeaderLen + payload.length := by
  simp [encodeFrame, putUint32LE, HeaderLen, hid]
  omega

theorem decodeHeader_encodeFrame (t : Nat) (id payload : List Nat)
    (hid : id.length = 16) (hp : payload.length < 4294967296) :
    DecodeHeader (encodeFrame t id payload) =
      .ok { magic := MagicByte, type := t, id := id, size := payload.length } := by
  set head22 := MagicByte :: t :: (id ++ putUint32LE payload.length) with hh
  have h22 : head22.length = 22 := by simp [hh, putUint32LE, hid]
  have hF : encodeFrame t id payload = head22 ++ xorBytes head22 :: payload := rfl
  have hlen : (encodeFrame t id payload).length = HeaderLen + payload.length :=
    encodeFrame_length t id payload hid
  have hb0 : byteAt (encodeFrame t id payload) 0 = MagicByte := by
    rw [hF, byteAt_append_left _ _ 0 (by omega)]; rfl
  have hb1 : byteAt (encodeFrame t id payload) 1 = t := by
    rw [hF, byteAt_append_left _ _ 1 (by omega)]; rfl
  have htake : (encodeFrame t id payload).take 22 = head22 := by
    rw [hF, List.take_left' h22]
  have hb22 : byteAt (encodeFrame t id payload) 22 = xorBytes head22 := by
    rw [hF, byteAt_append_right _ _ 22 (by omega), h22]; rfl
  have hid16 : ((encodeFrame t id payload).drop 2).take 16 = id := by
    have : (encodeFrame t id payload).drop 2
        = id ++ (putUint32LE payload.length ++ xorBytes head22 :: payload) := by
      rw [hF, hh]; simp
    rw [this, List.take_left' hid]
  have hmid : ∀ k, byteAt (id ++ putUint32LE payload.length) (16 + k)
      = byteAt (putUint32LE payload.length) k := by
    intro k
    rw [byteAt_append_right _ _ (16 + k) (by omega), hid]
    congr 1
    omega
  have e18 : byteAt (encodeFrame t id payload) 18 = byteAt (putUint32LE payload.length) 0 := by
    rw [hF, byteAt_append_left _ _ 18 (by omega), hh]
    exact hmid 0
  have e19 : byteAt (encodeFrame t id payload) 19 = byteAt (putUint32LE payload.length) 1 := by
    rw [hF, byteAt_append_left _ _ 19 (by omega), hh]
    exact hmid 1
  have e20 : byteAt (encodeFrame t id payload) 20 = byteAt (putUint32LE payload.length) 2 := by
    rw [hF, byteAt_append_left _ _ 20 (by omega), hh]
    exact hmid 2
  have e21 : byteAt (encodeFrame t id payload) 21 = byteAt (putUint32LE payload.length) 3 := by
    rw [hF, byteAt_append_left _ _ 21 (by omega), hh]
    exact hmid 3
  have hpar : parityOr0 ((encodeFrame t id payload).take 22) = xorBytes head22 := by
    rw [htake]
    unfold parityOr0 headerParity
    rw [if_neg (by rw [h22]; decide)]
  unfold DecodeHeader
  rw [if_neg (by omega), if_neg (by rw [hb0]; simp)]
  simp only [hpar]
  rw [if_neg (by rw [hb22]; simp)]
  rw [hb0, hb1, hid16, e18, e19, e20, e21, getUint32LE_putUint32LE _ hp]

/-- C2: for every frame type, every 16-byte id, and every payload of length
at most MAX_MESSAGE_PAYLOAD, decoding the bytes produced by the frame
encoder yields back exactly the same type, id and payload: the header
decoder recovers magic, type, id and size, and frame extraction from a
stash containing exactly the encoded bytes returns the original payload
and leaves the stash empty. -/
theorem frame_encode_decode_roundtrip (t : Nat) (id payload : List Nat)
    (ht : t < 256) (hid : id.length = 16) (hp : payload.length ≤ MAX_MESSAGE_PAYLOAD) :
    newMessage t id payload = .ok (encodeFrame t id payload) ∧
    DecodeHeader (encodeFrame t id payload) =
      .ok { magic := MagicByte, type := t, id := id, size := payload.length } ∧
    ReadPayload (encodeFrame t id payload) = (.payload id t payload, []) := by
  have hmax : MAX_MESSAGE_PAYLOAD = 26214400 := by decide
  have hp32 : payload.length < 4294967296 := by omega
  have hdec := decodeHeader_encodeFrame t id payload hid hp32
  refine ⟨?_, hdec, ?_⟩
  · unfold newMessage
    rw [if_neg (by omega)]
  · have hcons : encodeFrame t id payload
        = MagicByte :: (t :: (id ++ putUint32LE payload.length) ++ xorBytes
            (MagicByte :: t :: (id ++ putUint32LE payload.length)) :: payload) := by
      simp [encodeFrame]
    have hfind : (encodeFrame t id payload).findIdx? (· == MagicByte) = some 0 := by
      rw [hcons]; simp [List.findIdx?]
    have hlen : (encodeFrame t id payload).length = HeaderLen + payload.length :=
      encodeFrame_length t id payload hid
    have hdrop23 : (encodeFrame t id payload).drop HeaderLen = payload := by
      have : encodeFrame t id payload
          = (MagicByte :: t :: (id ++ putUint32LE payload.length)
              ++ [xorBytes (MagicByte :: t :: (id ++ putUint32LE payload.length))]) ++ payload := by
        simp [encodeFrame]
      rw [this, List.drop_left']
      simp [putUint32LE, hid, HeaderLen]
    unfold ReadPayload
    rw [hfind]
    simp only [List.drop_zero]
    rw [hdec]
    simp only
    rw [if_neg (by simp; omega), if_neg (by omega), hdrop23]
    rw [List.take_of_length_le (by omega)]
    have : HeaderLen + payload.length = (encodeFrame t id payload).length := hlen.symm
    rw [this, List.drop_length]

/-- Concrete instance of the C2 round-trip. -/
theorem frame_encode_decode_roundtrip_witness :
    newMessage 1 (List.replicate 16 0) [7, 8] = .ok (encodeFrame 1 (List.replicate 16 0) [7, 8]) ∧
    DecodeHeader (encodeFrame 1 (List.replicate 16 0) [7, 8]) =
      .ok { magic := MagicByte, type := 1, id := List.replicate 16 0, size := 2 } ∧
    ReadPayload (encodeFrame 1 (List.replicate 16 0) [7, 8]) =
      (.payload (List.replicate 16 0) 1 [7, 8], []) :=
  frame_encode_decode_roundtrip 1 (List.replicate 16 0) [7, 8]
    (by decide) (by decide) (by decide)

/-- C4: when the stash holds a well-formed header whose size field exceeds
MAX_MESSAGE_PAYLOAD, ReadPayload consumes exactly the HeaderLen (23) header
bytes — never any of the following bytes — reports InvalidPayloadSize, and
the remaining stash contents are exactly the bytes that followed the header. -/
theorem readPayload_oversized_consumes_header_only (hdr rest : List Nat)
    (hlen : hdr.length = HeaderLen)
    (hmagic : byteAt hdr 0 = MagicByte)
    (hparity : byteAt hdr 22 = xorBytes (hdr.take 22))
    (hsize : MAX_MESSAGE_PAYLOAD <
      getUint32LE (byteAt hdr 18) (byteAt hdr 19) (byteAt hdr 20) (byteAt hdr 21)) :
    ReadPayload (hdr ++ rest) = (.readErr .invalidPayloadSize, rest) := by
  have hHL : HeaderLen = 23 := rfl
  have hL : (hdr ++ rest).length = HeaderLen + rest.length := by simp [hlen]
  obtain ⟨b0, tl, hcons⟩ : ∃ b0 tl, hdr = b0 :: tl := by
    cases hdr with
    | nil => simp [HeaderLen] at hlen
    | cons a l => exact ⟨a, l, rfl⟩
  have hb0 : b0 = MagicByte := by
    have := hmagic
    rw [hcons] at this
    exact this
  have hfind : (hdr ++ rest).findIdx? (· == MagicByte) = some 0 := by
    rw [hcons, hb0]
    simp [List.findIdx?]
  have hat : ∀ k, k < HeaderLen → byteAt (hdr ++ rest) k = byteAt hdr k := by
    intro k hk
    exact byteAt_append_left hdr rest k (by omega)
  have htake22 : (hdr ++ rest).take 22 = hdr.take 22 := by
    rw [List.take_append_eq_append_take]
    have : 22 - hdr.length = 0 := by omega
    rw [this]
    simp
  have hpar : parityOr0 ((hdr ++ rest).take 22) = xorBytes (hdr.take 22) := by
    rw [htake22]
    unfold parityOr0 headerParity
    rw [if_neg (by rw [List.length_take]; omega)]
  have hdec : DecodeHeader (hdr ++ rest) =
      .ok { magic := byteAt hdr 0, type := byteAt hdr 1
          , id := ((hdr ++ rest).drop 2).take 16
          , size := getUint32LE (byteAt hdr 18) (byteAt hdr 19) (byteAt hdr 20) (byteAt hdr 21) } := by
    unfold DecodeHeader
    rw [if_neg (by omega)]
    rw [hat 0 (by omega), if_neg (by rw [hmagic]; simp)]
    simp only [hpar]
    rw [hat 22 (by omega), if_neg (by rw [hparity]; simp)]
    rw [hat 1 (by omega), hat 18 (by omega), hat 19 (by omega),
      hat 20 (by omega), hat 21 (by omega)]
  have hdrop : (hdr ++ rest).drop HeaderLen = rest := List.drop_left' hlen
  unfold ReadPayload
  rw [hfind]
  simp only [List.drop_zero]
  rw [hdec]
  simp only
  rw [if_pos hsize, hdrop]

/-- Concrete instance of C4: a 23-byte header advertising a 32 MiB payload
followed by two extra bytes loses only the header. -/
theorem readPayload_oversized_witness :
    ReadPayload (([86, 1] ++ List.replicate 16 0 ++ [0, 0, 0, 2, 85]) ++ [9, 9]) =
      (.readErr .invalidPayloadSize, [9, 9]) :=
  readPayload_oversized_consumes_header_only ([86, 1] ++ List.replicate 16 0 ++ [0, 0, 0, 2, 85])
    [9, 9] (by decide) (by decide) (by decide) (by decide)

/-- C8 counterexample: a single Write larger than the configured capacity
leaves the stash over capacity.  With capacity 1 and an empty buffer,
writing two bytes computes drop = 1, `buf.Next(1)` drops nothing from the
empty buffer, and the subsequent write leaves 2 > 1 buffered bytes. -/
theorem stashWrite_exceeds_capacity_cex :
    stashWrite 1 [] [0, 0] = [0, 0] ∧ (stashWrite 1 [] [0, 0]).length = 2 ∧ ¬ (2 ≤ 1) := by
  refine ⟨by decide, by decide, by decide⟩

/-- C8 (amended): provided each Write is no larger than the configured
capacity, the buffered length never exceeds the capacity: a non-overflowing
write appends, an overflowing write drops exactly the oldest
`len + datalen - capacity` bytes from the head and leaves exactly
`capacity` bytes buffered; consequently any sequence of such writes keeps
the length at most the capacity. -/
theorem stashWrite_bounded (capacity : Nat) (buf data : List Nat)
    (hd : data.length ≤ capacity) :
    (stashWrite capacity buf data).length ≤ capacity ∧
    (buf.length + data.length > capacity →
      stashWrite capacity buf data =
        buf.drop (buf.length + data.length - capacity) ++ data ∧
      (stashWrite capacity buf data).length = capacity) ∧
    (buf.length + data.length ≤ capacity →
      stashWrite capacity buf data = buf ++ data) := by
  unfold stashWrite
  by_cases h : buf.length + data.length > capacity
  · rw [if_pos h]
    have hlen : (buf.drop (buf.length + data.length - capacity) ++ data).length = capacity := by
      rw [List.length_append, List.length_drop]
      omega
    exact ⟨by omega, fun _ => ⟨rfl, hlen⟩, fun hc => absurd h (by omega)⟩
  · rw [if_neg h]
    have hlen : (buf ++ data).length = buf.length + data.length := by simp
    exact ⟨by omega, fun hc => absurd hc h, fun _ => rfl⟩

/-- Concrete instance of the amended C8: capacity 4, three buffered bytes,
writing three more drops the two oldest and leaves exactly four. -/
theorem stashWrite_bounded_witness :
    (stashWrite 4 [1, 2, 3] [4, 5, 6]).length ≤ 4 ∧
    ((3 : Nat) + 3 > 4 →
      stashWrite 4 [1, 2, 3] [4, 5, 6] = [1, 2, 3].drop (3 + 3 - 4) ++ [4, 5, 6] ∧
      (stashWrite 4 [1, 2, 3] [4, 5, 6]).length = 4) ∧
    ((3 : Nat) + 3 ≤ 4 → stashWrite 4 [1, 2, 3] [4, 5, 6] = [1, 2, 3] ++ [4, 5, 6]) :=
  stashWrite_bounded 4 [1, 2, 3] [4, 5, 6] (by decide)

/-- C7 counterexample: the frame encoder newMessage does NOT refuse a
payload one byte over MAX_MESSAGE_PAYLOAD — it happily produces frame
bytes; only the 2^32 − 1 bound is checked inside the encoder. -/
theorem newMessage_accepts_over_max_cex :
    newMessage 1 (List.replicate 16 0) (List.replicate (MAX_MESSAGE_PAYLOAD + 1) 0) =
      .ok (encodeFrame 1 (List.replicate 16 0) (List.replicate (MAX_MESSAGE_PAYLOAD + 1) 0)) ∧
    MAX_MESSAGE_PAYLOAD < (List.replicate (MAX_MESSAGE_PAYLOAD + 1) (0 : Nat)).length := by
  constructor
  · unfold newMessage
    rw [if_neg]
    rw [List.length_replicate]
    have : MAX_MESSAGE_PAYLOAD = 26214400 := by decide
    omega
  · rw [List.length_replicate]
    omega

/-- C3 counterexample: an 87-byte block payload (tag 0x11, level 0,
fitness length 0, so the round is read back at offset 83 inside the
fitness-length field) is ACCEPTED by the validator, yet 87 < 91 =
fitness_off + 8.  The validator's own minimum is fitness_off + 4. -/
theorem block_payload_87_accepted_cex :
    DecodeAndValidateSignPayload (0x11 :: List.replicate 86 0) =
      .ok (.BLOCK, 0, 0, 0x11 :: List.replicate 86 0) ∧
    (0x11 :: List.replicate 86 (0 : Nat)).length = 87 ∧ ¬ (91 ≤ 87) := by
  refine ⟨by decide, by decide, by decide⟩

/-- C3 (amended): every block payload accepted by the validator has length
at least fitness_off + 4 = 87 and at least
fitness_off + fitness_len + 4; any block payload shorter than 87 bytes
(= blockMinLen) is rejected with an error.  (The spec's bound
fitness_off + 8 = 91 only holds when fitness_len ≥ 4.) -/
theorem block_payload_min_length (raw : List Nat)
    (htag : byteAt raw 0 = 0x11) :
    (∀ k l r sb, DecodeAndValidateSignPayload raw = .ok (k, l, r, sb) →
      blockMinLen ≤ raw.length ∧
      blockFitnessOff + (readInt32BE raw blockFitnessOff).toNat + 4 ≤ raw.length) ∧
    (raw.length < blockMinLen → isError (DecodeAndValidateSignPayload raw) = true) := by
  have hne : raw.length < 1 → False := by
    intro h
    have : raw = [] := by
      cases raw with
      | nil => rfl
      | cons a l => simp at h
    rw [this] at htag
    simp [byteAt] at htag
  constructor
  · intro k l r sb hok
    unfold DecodeAndValidateSignPayload at hok
    rw [if_neg (by intro h; exact hne h), htag] at hok
    by_cases h1 : raw.length < blockMinLen
    · rw [if_pos h1] at hok
      exact absurd hok (by simp)
    · rw [if_neg h1] at hok
      simp only at hok
      by_cases h2 : readInt32BE raw blockLevelOff < 0
      · rw [if_pos h2] at hok
        exact absurd hok (by simp)
      · rw [if_neg h2] at hok
        by_cases h3 : readInt32BE raw blockFitnessOff < 0
        · rw [if_pos h3] at hok
          exact absurd hok (by simp)
        · rw [if_neg h3] at hok
          by_cases h4 : blockFitnessOff + (readInt32BE raw blockFitnessOff).toNat + 4 > raw.length
          · rw [if_pos h4] at hok
            exact absurd hok (by simp)
          · exact ⟨by omega, by omega⟩
  · intro hshort
    unfold DecodeAndValidateSignPayload
    rw [if_neg (by intro h; exact hne h), htag, if_pos hshort]
    rfl

/-- Concrete instance of the amended C3: the accepted 87-byte block payload
meets both lower bounds, and an 86-byte block payload is rejected. -/
theorem block_payload_min_length_witness :
    (blockMinLen ≤ (0x11 :: List.replicate 86 (0 : Nat)).length ∧
      blockFitnessOff +
        (readInt32BE (0x11 :: List.replicate 86 0) blockFitnessOff).toNat + 4 ≤
        (0x11 :: List.replicate 86 (0 : Nat)).length) ∧
    isError (DecodeAndValidateSignPayload (0x11 :: List.replicate 85 0)) = true :=
  ⟨(block_payload_min_length (0x11 :: List.replicate 86 0) (by decide)).1
      .BLOCK 0 0 (0x11 :: List.replicate 86 0) (by decide),
   (block_payload_min_length (0x11 :: List.replicate 85 0) (by decide)).2 (by decide)⟩

/-! ## Broker lemmas and claims -/

theorem filter_ne_key_eq_self {α : Type} (l : List (MsgId × α)) (id : MsgId)
    (h : ∀ e ∈ l, e.1 ≠ id) : l.filter (fun e => !(e.1 == id)) = l := by
  apply List.filter_eq_self.mpr
  intro e he
  simpa using h e he

theorem filter_ne_elem_eq_self (l : List MsgId) (id : MsgId)
    (h : rmHasId l id = false) : l.filter (fun i => !(i == id)) = l := by
  apply List.filter_eq_self.mpr
  intro e he
  unfold rmHasId at h
  rw [List.any_eq_false] at h
  simpa using h e he

theorem length_filter_partition {α : Type} (l : List α) (p : α → Bool) :
    (l.filter p).length + (l.filter (fun a => !(p a))).length = l.length := by
  induction l with
  | nil => simp
  | cons a l ih =>
      by_cases h : p a = true
      · simp [List.filter_cons, h]
        omega
      · rw [Bool.not_eq_true] at h
        simp [List.filter_cons, h]
        omega

/-- The outFrames list only grows along the retry retransmission fold. -/
theorem retry_foldl_out_suffix (enq : Bool) (l : List (MsgId × List Nat)) (acc : Broker) :
    ∃ suf, (l.foldl (fun a e => (writeFrameS a .request e.1 e.2 enq).1) acc).outFrames
      = acc.outFrames ++ suf := by
  induction l generalizing acc with
  | nil => exact ⟨[], by simp⟩
  | cons e l ih =>
      obtain ⟨suf, hsuf⟩ := ih ((writeFrameS acc .request e.1 e.2 enq).1)
      have hstep : ∃ fr, (writeFrameS acc .request e.1 e.2 enq).1.outFrames
          = acc.outFrames ++ fr := by
        unfold writeFrameS
        by_cases h1 : e.2.length > 4294967295
        · rw [if_pos h1]
          exact ⟨[], by simp⟩
        · rw [if_neg h1]
          cases enq with
          | true => exact ⟨[(.request, e.1, e.2)], rfl⟩
          | false => exact ⟨[], by simp⟩
      obtain ⟨fr, hfr⟩ := hstep
      exact ⟨fr ++ suf, by rw [List.foldl_cons, hsuf, hfr, List.append_assoc]⟩

/-- Every unconfirmed entry with an encodable payload is retransmitted by
the retry fold when the write channel accepts the frames. -/
theorem retry_emits_member (l : List (MsgId × List Nat)) (acc : Broker) (id : MsgId)
    (p : List Nat) (hmem : (id, p) ∈ l) (hlen : p.length ≤ 4294967295) :
    (PayloadType.request, id, p) ∈
      (l.foldl (fun a e => (writeFrameS a .request e.1 e.2 true).1) acc).outFrames := by
  induction hmem generalizing acc with
  | head as =>
      obtain ⟨suf, hsuf⟩ :=
        retry_foldl_out_suffix true as ((writeFrameS acc .request id p true).1)
      rw [List.foldl_cons, hsuf]
      have hw : (writeFrameS acc .request id p true).1.outFrames
          = acc.outFrames ++ [(PayloadType.request, id, p)] := by
        unfold writeFrameS
        rw [if_neg (by omega)]
        rfl
      rw [hw, List.append_assoc]
      simp
  | tail e _ ih =>
      rw [List.foldl_cons]
      exact ih _

/-- C6 counterexample: a handler that panics on an inbound request frame is
NOT caught by handleWork — there is no recover on the worker path (the only
recovers in the source live inside writeFrame), so the panic propagates out
of handleWork (in Go, an unrecovered panic in a worker goroutine crashes
the whole process).  No response frame — empty or otherwise — is produced
for the request id. -/
def panicHandler : Handler := fun _ => .panics "boom"

def respondHandler : Handler := fun p => .ret p

def emptyBroker : Broker :=
  { waiters := { entries := [], chans := [], nextRef := 0 }
  , processing := [], unconfirmed := [], outFrames := [] }

theorem handler_panic_propagates_cex :
    handleWork panicHandler true emptyBroker
      { id := [1], payloadType := .request, payload := [0] } = .error "boom" := rfl

/-- C6 (amended): for an inbound request frame not already being processed,
a panicking handler makes handleWork propagate the panic — no response
frame is emitted; a handler that returns (the broker discards any error
return) leads to an accept frame and a response frame carrying the
handler's possibly-empty payload, with the processing set restored. -/
theorem handleWork_request_panic_or_respond (h : Handler) (b : Broker) (w : Work)
    (hty : w.payloadType = .request) (hnew : rmHasId b.processing w.id = false) :
    (∀ m, h w.payload = .panics m → handleWork h true b w = .error m) ∧
    (∀ resp, h w.payload = .ret resp → resp.length ≤ 4294967295 →
      handleWork h true b w = .ok { b with
        outFrames := b.outFrames ++ [(.acceptRequest, w.id, []), (.response, w.id, resp)] }) := by
  obtain ⟨wid, wty, wpl⟩ := w
  simp only at hty hnew ⊢
  subst hty
  have hkeep : (wid :: b.processing).filter (fun i => !(i == wid)) = b.processing := by
    rw [List.filter_cons]
    simp only [beq_self_eq_true, Bool.not_true, Bool.false_eq_true, if_neg]
    · exact filter_ne_elem_eq_self b.processing wid hnew
  constructor
  · intro m hm
    unfold handleWork
    simp only [hnew, Bool.false_eq_true, if_false]
    unfold writeFrameS
    rw [if_neg (by simp)]
    simp only [if_true]
    rw [hm]
  · intro resp hr hrlen
    unfold handleWork
    simp only [hnew, Bool.false_eq_true, if_false]
    unfold writeFrameS
    rw [if_neg (by simp)]
    simp only [if_true]
    rw [hr]
    simp only
    rw [if_neg (by omega)]
    simp only [if_true]
    congr 1
    · simp only [hkeep]
      rw [List.append_assoc]
      rfl

/-- Concrete instances of the amended C6: the panicking handler propagates,
the returning handler produces accept + response frames. -/
theorem handleWork_request_panic_or_respond_witness :
    handleWork panicHandler true emptyBroker
      { id := [1], payloadType := .request, payload := [] } = .error "boom" ∧
    handleWork respondHandler true emptyBroker
      { id := [1], payloadType := .request, payload := [5] } =
      .ok { emptyBroker with
        outFrames := [(.acceptRequest, [1], []), (.response, [1], [5])] } :=
  ⟨(handleWork_request_panic_or_respond panicHandler emptyBroker
      { id := [1], payloadType := .request, payload := [] } rfl rfl).1 "boom" rfl,
   (handleWork_request_panic_or_respond respondHandler emptyBroker
      { id := [1], payloadType := .request, payload := [5] } rfl rfl).2 [5] rfl (by decide)⟩

/-- C7 (amended): the MAX_MESSAGE_PAYLOAD bound is enforced by
Broker.Request before any encoding: every payload longer than
MAX_MESSAGE_PAYLOAD (and every payload longer than 2^32 − 1) makes Request
return an error with the broker state unchanged — no waiter, no
unconfirmed entry, no frame. -/
theorem request_refuses_oversized (b : Broker) (payload : List Nat) (freshId : MsgId)
    (now : Int) (enq : Bool) (sel : SelectOutcome)
    (h : payload.length > MAX_MESSAGE_PAYLOAD) :
    (Request b payload freshId now enq sel).1 = b ∧
    isError (Request b payload freshId now enq sel).2 = true := by
  unfold Request
  by_cases h1 : payload.length > 4294967295
  · rw [if_pos h1]
    exact ⟨rfl, rfl⟩
  · rw [if_neg h1, if_pos h]
    exact ⟨rfl, rfl⟩

/-- Concrete instance of the amended C7: a payload of MAX_MESSAGE_PAYLOAD + 1
zero bytes is refused by Request with the broker untouched. -/
theorem request_refuses_oversized_witness :
    (Request emptyBroker (List.replicate (MAX_MESSAGE_PAYLOAD + 1) 0)
        [1] 0 true .ctxDone).1 = emptyBroker ∧
    isError (Request emptyBroker (List.replicate (MAX_MESSAGE_PAYLOAD + 1) 0)
        [1] 0 true .ctxDone).2 = true :=
  request_refuses_oversized emptyBroker (List.replicate (MAX_MESSAGE_PAYLOAD + 1) 0)
    [1] 0 true .ctxDone (by simp)

/-- C9 counterexample: reaping deletes the waiter entry but never closes
the delivery channel: after ReapStale removes the only (stale) entry, its
channel slot is still present in the heap with `closed = false` and an
empty buffer, so a caller blocked on that channel cannot observe a closed
slot — it stays blocked until its own context or the broker context is
cancelled.  This refutes the claim that the caller observes the slot
closed and fails with a timeout-like error. -/
theorem reapStale_leaves_slot_open_cex :
    (WaiterTable.ReapStale
        { entries := [([42], 0, 0)]
        , chans := [(0, { buffered := none, closed := false })]
        , nextRef := 1 } 1 10).1 = 1 ∧
    (WaiterTable.ReapStale
        { entries := [([42], 0, 0)]
        , chans := [(0, { buffered := none, closed := false })]
        , nextRef := 1 } 1 10).2.entries = [] ∧
    (WaiterTable.ReapStale
        { entries := [([42], 0, 0)]
        , chans := [(0, { buffered := none, closed := false })]
        , nextRef := 1 } 1 10).2.chans =
      [(0, { buffered := none, closed := false })] := by
  refine ⟨by decide, by decide, by decide⟩

/-- C9 (amended): ReapStale removes exactly the entries strictly older than
the TTL (every older entry is gone, every other entry survives, and the
reaped count plus the survivors account for the whole table), while the
channel heap — including every slot's `closed` flag — is untouched: a
caller still awaiting a reaped waiter keeps blocking on its open channel
until its own context or broker shutdown cancels the Request. -/
theorem reapStale_removes_old_entries (wt : WaiterTable) (ttl now : Int) :
    (∀ e ∈ (wt.ReapStale ttl now).2.entries, ¬ (now - e.2.2 > ttl)) ∧
    (∀ e ∈ wt.entries, ¬ (now - e.2.2 > ttl) → e ∈ (wt.ReapStale ttl now).2.entries) ∧
    (wt.ReapStale ttl now).1 + (wt.ReapStale ttl now).2.entries.length
      = wt.entries.length ∧
    (wt.ReapStale ttl now).2.chans = wt.chans ∧
    (wt.ReapStale ttl now).2.nextRef = wt.nextRef := by
  refine ⟨?_, ?_, ?_, rfl, rfl⟩
  · intro e he
    unfold WaiterTable.ReapStale at he
    simp only [List.mem_filter] at he
    simpa using he.2
  · intro e he hyoung
    unfold WaiterTable.ReapStale
    simp only [List.mem_filter]
    exact ⟨he, by simpa using hyoung⟩
  · exact length_filter_partition wt.entries _

def wtReapEx : WaiterTable :=
  { entries := [([1], 0, 0), ([2], 1, 9)]
  , chans := [(0, { buffered := none, closed := false })
             , (1, { buffered := none, closed := false })]
  , nextRef := 2 }

/-- Concrete instance of the amended C9: with a stale and a fresh entry,
the fresh entry survives, reaped + kept = 2, channels untouched. -/
theorem reapStale_removes_old_entries_witness :
    ([2], 1, (9 : Int)) ∈ (wtReapEx.ReapStale 5 10).2.entries ∧
    (wtReapEx.ReapStale 5 10).1 + (wtReapEx.ReapStale 5 10).2.entries.length = 2 ∧
    (wtReapEx.ReapStale 5 10).2.chans = wtReapEx.chans :=
  ⟨(reapStale_removes_old_entries wtReapEx 5 10).2.1 ([2], 1, 9) (by decide) (by decide),
   (reapStale_removes_old_entries wtReapEx 5 10).2.2.1,
   (reapStale_removes_old_entries wtReapEx 5 10).2.2.2.1⟩

/-- C10: when the write channel refuses the request frame, Broker.Request
deletes the waiter entry for the fresh id but LEAVES the payload stored in
the unconfirmed-request set; processing set and outbound frames are
unchanged; and a later peer retry frame makes handleWork retransmit that
stored payload as a request frame for the same id. -/
theorem request_writefail_keeps_unconfirmed (b : Broker) (payload : List Nat)
    (freshId : MsgId) (now : Int) (sel : SelectOutcome)
    (hp : payload.length ≤ MAX_MESSAGE_PAYLOAD)
    (hfresh : ∀ e ∈ b.waiters.entries, e.1 ≠ freshId) :
    (Request b payload freshId now false sel).2 = .error .writeFrameFailed ∧
    (Request b payload freshId now false sel).1.waiters.entries = b.waiters.entries ∧
    (Request b payload freshId now false sel).1.unconfirmed
      = rmStore b.unconfirmed freshId payload ∧
    (Request b payload freshId now false sel).1.processing = b.processing ∧
    (Request b payload freshId now false sel).1.outFrames = b.outFrames ∧
    (∀ rid rp, ∃ b2,
      handleWork respondHandler true (Request b payload freshId now false sel).1
        { id := rid, payloadType := .retry, payload := rp } = .ok b2 ∧
      (PayloadType.request, freshId, payload) ∈ b2.outFrames) := by
  have hmax : MAX_MESSAGE_PAYLOAD = 26214400 := by decide
  have h32 : ¬ (payload.length > 4294967295) := by omega
  have hreq : Request b payload freshId now false sel =
      ({ waiters := { entries := b.waiters.entries
                    , chans := (b.waiters.nextRef,
                        { buffered := none, closed := false }) :: b.waiters.chans
                    , nextRef := b.waiters.nextRef + 1 }
        , processing := b.processing
        , unconfirmed := rmStore b.unconfirmed freshId payload
        , outFrames := b.outFrames }, .error .writeFrameFailed) := by
    unfold Request
    rw [if_neg h32, if_neg (by omega)]
    simp only
    unfold writeFrameS
    rw [if_neg h32]
    simp only [Bool.false_eq_true, if_false]
    unfold WaiterTable.delete WaiterTable.newWaiter
    simp only
    rw [List.filter_cons]
    simp only [beq_self_eq_true, Bool.not_true, Bool.false_eq_true, if_false]
    rw [filter_ne_key_eq_self b.waiters.entries freshId hfresh]
  refine ⟨by rw [hreq], by rw [hreq], by rw [hreq], by rw [hreq], by rw [hreq], ?_⟩
  intro rid rp
  rw [hreq]
  simp only
  unfold handleWork
  simp only
  refine ⟨_, rfl, ?_⟩
  apply retry_emits_member
  · unfold rmStore
    exact List.mem_cons_self _ _
  · omega

def fid16 : MsgId := List.replicate 16 7

/-- Concrete instance of C10 on the empty broker. -/
theorem request_writefail_keeps_unconfirmed_witness :
    (Request emptyBroker [1] fid16 0 false .ctxDone).2 = .error .writeFrameFailed ∧
    (Request emptyBroker [1] fid16 0 false .ctxDone).1.unconfirmed = [(fid16, [1])] ∧
    (Request emptyBroker [1] fid16 0 false .ctxDone).1.outFrames = [] ∧
    (∃ b2, handleWork respondHandler true (Request emptyBroker [1] fid16 0 false .ctxDone).1
        { id := [9], payloadType := .retry, payload := [] } = .ok b2 ∧
      (PayloadType.request, fid16, [1]) ∈ b2.outFrames) :=
  ⟨(request_writefail_keeps_unconfirmed emptyBroker [1] fid16 0 .ctxDone
      (by decide) (by simp [emptyBroker])).1,
   (request_writefail_keeps_unconfirmed emptyBroker [1] fid16 0 .ctxDone
      (by decide) (by simp [emptyBroker])).2.2.1,
   (request_writefail_keeps_unconfirmed emptyBroker [1] fid16 0 .ctxDone
      (by decide) (by simp [emptyBroker])).2.2.2.2.1,
   (request_writefail_keeps_unconfirmed emptyBroker [1] fid16 0 .ctxDone
      (by decide) (by simp [emptyBroker])).2.2.2.2.2 [9] []⟩

/-! ## Watermark lemmas and C1 -/

theorem wmLtB_eq_false_iff (old new : Watermark) :
    wmLtB old new = false ↔
      (new.level < old.level ∨ (new.level = old.level ∧ new.round ≤ old.round)) := by
  unfold wmLtB
  simp only [Bool.or_eq_false_iff, Bool.and_eq_false_iff, decide_eq_false_iff_not]
  omega

theorem wmLtB_pairLt (old : Watermark) (l r : Nat)
    (h : wmLtB old { level := l, round := r } = true) :
    pairLt (old.level, old.round) (l, r) := by
  unfold wmLtB at h
  simp only [Bool.or_eq_true, Bool.and_eq_true, decide_eq_true_eq] at h
  unfold pairLt
  simpa using h

theorem getWM_setWM_same (k : KeyEntry) (kind : SIGN_KIND) (wm : Watermark)
    (hk : kind ≠ .UNSPECIFIED) : getWM (setWM k kind wm) kind = wm := by
  cases kind with
  | UNSPECIFIED => exact absurd rfl hk
  | BLOCK => rfl
  | PREATTESTATION => rfl
  | ATTESTATION => rfl

theorem getWM_setWM_other (k : KeyEntry) (kd kind : SIGN_KIND) (wm : Watermark)
    (h : kd ≠ kind) : getWM (setWM k kd wm) kind = getWM k kind := by
  cases kd <;> cases kind <;> first | rfl | exact absurd rfl h

theorem decode_ok_kind_ne_unspecified (raw : List Nat) (kd : SIGN_KIND) (l r : Nat)
    (sb : List Nat) (h : DecodeAndValidateSignPayload raw = .ok (kd, l, r, sb)) :
    kd ≠ .UNSPECIFIED := by
  simp only [DecodeAndValidateSignPayload] at h
  split at h
  · simp at h
  · split at h
    · repeat' (split at h)
      all_goals (try simp_all)
      all_goals (obtain ⟨h1, -⟩ := h; rw [← h1]; simp)
    · repeat' (split at h)
      all_goals (try simp_all)
      all_goals (obtain ⟨h1, -⟩ := h; rw [← h1]; simp)
    · repeat' (split at h)
      all_goals (try simp_all)
      all_goals (obtain ⟨h1, -⟩ := h; rw [← h1]; simp)
    · simp at h

theorem signStep_err_state (k : KeyEntry) (raw : List Nat) (k1 : KeyEntry) (e : SignErr)
    (hs : signStep k raw = (k1, .err e)) : k1 = k := by
  unfold signStep at hs
  split at hs
  · exact (Prod.mk.injEq _ _ _ _ ▸ hs).1.symm
  · split at hs
    · split at hs
      · simp at hs
      · exact (Prod.mk.injEq _ _ _ _ ▸ hs).1.symm
    · exact (Prod.mk.injEq _ _ _ _ ▸ hs).1.symm

theorem signStep_ok_state (k : KeyEntry) (raw : List Nat) (k1 : KeyEntry)
    (kd : SIGN_KIND) (l r : Nat) (sb : List Nat)
    (hs : signStep k raw = (k1, .okSig kd l r sb)) :
    kd ≠ .UNSPECIFIED ∧ wmLtB (getWM k kd) { level := l, round := r } = true ∧
      k1 = setWM k kd { level := l, round := r } := by
  unfold signStep at hs
  split at hs
  · simp at hs
  · rename_i v heq
    split at hs
    · split at hs
      · rename_i kind level round signedBytes hlt
        have h2 := (Prod.mk.injEq _ _ _ _ ▸ hs).2
        have h1 := (Prod.mk.injEq _ _ _ _ ▸ hs).1
        injection h2 with e1 e2 e3 e4
        subst e1; subst e2; subst e3; subst e4
        exact ⟨decode_ok_kind_ne_unspecified _ _ _ _ _ heq, hlt, h1.symm⟩
      · simp at hs
    · simp at hs

theorem runSigns_cons (k : KeyEntry) (r : List Nat) (rest : List (List Nat)) :
    runSigns k (r :: rest) = ((runSigns (signStep k r).1 rest).1,
      (signStep k r).2 :: (runSigns (signStep k r).1 rest).2) := rfl

/-- Successful signs of any kind form a strictly increasing lexicographic
chain, starting strictly above the initial stored watermark. -/
theorem runSigns_chain (rs : List (List Nat)) : ∀ (k : KeyEntry) (kind : SIGN_KIND),
    List.Chain' pairLt (((getWM k kind).level, (getWM k kind).round)
      :: kindSuccesses (runSigns k rs).2 kind) := by
  induction rs with
  | nil =>
      intro k kind
      simp [runSigns, kindSuccesses]
  | cons r rest ih =>
      intro k kind
      rcases hs : signStep k r with ⟨k1, res⟩
      have hrun : runSigns k (r :: rest)
          = ((runSigns k1 rest).1, res :: (runSigns k1 rest).2) := by
        rw [runSigns_cons, hs]
      rw [hrun]
      cases res with
      | err e =>
          have hk1 : k1 = k := signStep_err_state k r k1 e hs
          subst hk1
          have hsk : kindSuccesses (SignResult.err e :: (runSigns k1 rest).2) kind
              = kindSuccesses (runSigns k1 rest).2 kind := by
            simp [kindSuccesses]
          rw [hsk]
          exact ih k1 kind
      | okSig kd l rd sb =>
          obtain ⟨hkd, hlt, hk1⟩ := signStep_ok_state k r k1 kd l rd sb hs
          by_cases hkk : kd = kind
          · subst hkk
            have hsk : kindSuccesses (SignResult.okSig kd l rd sb :: (runSigns k1 rest).2) kd
                = (l, rd) :: kindSuccesses (runSigns k1 rest).2 kd := by
              simp [kindSuccesses]
            rw [hsk]
            apply List.chain'_cons.mpr
            constructor
            · exact wmLtB_pairLt _ l rd hlt
            · have := ih k1 kd
              rw [hk1, getWM_setWM_same k kd _ hkd] at this
              rw [hk1]
              exact this
          · have hsk : kindSuccesses (SignResult.okSig kd l rd sb :: (runSigns k1 rest).2) kind
                = kindSuccesses (runSigns k1 rest).2 kind := by
              simp [kindSuccesses, hkk]
            rw [hsk]
            have := ih k1 kind
            rw [hk1, getWM_setWM_other k kd kind _ hkk] at this
            rw [hk1]
            exact this

/-- C1 (spec-modelled keychain sign over the embedded validator): a sign
attempt whose decoded (level, round) is lexicographically equal to or
lower than the stored per-kind watermark of an unlocked key fails with
StaleWatermark and leaves the key state unchanged (no signature is
produced); and over every sequence of sign attempts, the (level, round)
pairs of the successful signs of each kind form a strictly increasing
lexicographic sequence (lying strictly above the initial watermark). -/
theorem watermark_monotonicity :
    (∀ (k : KeyEntry) (raw : List Nat) (kind : SIGN_KIND) (l r : Nat) (sb : List Nat),
      DecodeAndValidateSignPayload raw = .ok (kind, l, r, sb) →
      k.lockState = .UNLOCKED →
      (l < (getWM k kind).level ∨ (l = (getWM k kind).level ∧ r ≤ (getWM k kind).round)) →
      signStep k raw = (k, .err .staleWatermark)) ∧
    (∀ (k : KeyEntry) (rs : List (List Nat)) (kind : SIGN_KIND),
      List.Chain' pairLt (((getWM k kind).level, (getWM k kind).round)
        :: kindSuccesses (runSigns k rs).2 kind)) := by
  constructor
  · intro k raw kind l r sb hdec hlock hstale
    have hwm : wmLtB (getWM k kind) { level := l, round := r } = false :=
      (wmLtB_eq_false_iff _ _).mpr (by simpa using hstale)
    unfold signStep
    rw [hdec]
    simp only [if_pos hlock, hwm, Bool.false_eq_true, if_false]
  · intro k rs kind
    exact runSigns_chain rs k kind

/-- A 46-byte preattestation payload with level 5, round 0. -/
def preattEx : List Nat :=
  0x12 :: List.replicate 37 0 ++ [0, 0, 0, 5] ++ [0, 0, 0, 0]

def keyEx : KeyEntry :=
  { lockState := .UNLOCKED
  , wmBlock := { level := 0, round := 0 }
  , wmPreattestation := { level := 5, round := 0 }
  , wmAttestation := { level := 0, round := 0 } }

/-- Concrete instance of C1: re-signing a preattestation at the exact
stored watermark (5, 0) fails StaleWatermark, and a concrete run has its
successes in a strictly increasing chain. -/
theorem watermark_monotonicity_witness :
    signStep keyEx preattEx = (keyEx, .err .staleWatermark) ∧
    List.Chain' pairLt (((getWM keyEx .PREATTESTATION).level,
        (getWM keyEx .PREATTESTATION).round)
      :: kindSuccesses (runSigns keyEx [preattEx]).2 .PREATTESTATION) :=
  ⟨watermark_monotonicity.1 keyEx preattEx .PREATTESTATION 5 0 preattEx
      (by decide) rfl (by decide),
   watermark_monotonicity.2 keyEx [preattEx] .PREATTESTATION⟩

/-! ## Base58Check and secret-key import (C5) -/

/-- FIPS 180-4 test vector: the embedding of SHA-256 is the real function. -/
theorem sha256_abc_vector :
    SHA256.sha256 [97, 98, 99] =
      [186, 120, 22, 191, 143, 1, 207, 234, 65, 65, 64, 222, 93, 174, 34, 35,
       176, 3, 97, 163, 150, 23, 122, 156, 180, 16, 255, 97, 242, 0, 21, 173] := by
  decide

def blskPayloadEx : List Nat := 1 :: List.replicate 31 0

/-- Base58 of pfxBLSecretKey ++ blskPayloadEx ++ [0,0,0,0]: a BLsk string
whose 4-byte checksum field is wrong (the correct one is [37,171,164,170]). -/
def badBLskStr : List Char :=
  "BLsk1WMPAhZeJzXkiXyaxiYoy72Kq4QwFN6pWPAzB7daYE8Zk4BDrP".toList

/-- The same payload with the correct double-SHA256 checksum. -/
def goodBLskStr : List Char :=
  "BLsk1WMPAhZeJzXkiXyaxiYoy72Kq4QwFN6pWPAzB7daYE8Zm22RA9".toList

set_option maxRecDepth 100000 in
/-- C5 counterexample: a BLsk string whose checksum does NOT match
double_sha256(prefix ++ payload)[0..4] is still imported successfully by
ImportBLSecretKey — the import checks the prefix only and drops the
checksum unverified, so not every decode operation in the program enforces
the checksum. -/
theorem importBLSecretKey_ignores_checksum_cex :
    base58Decode badBLskStr = .ok (pfxBLSecretKey ++ blskPayloadEx ++ [0, 0, 0, 0]) ∧
    (doubleSHA256 (pfxBLSecretKey ++ blskPayloadEx)).take 4 ≠ [0, 0, 0, 0] ∧
    ImportBLSecretKey badBLskStr = .ok 1 := by
  refine ⟨by decide, by decide, by decide⟩

/-- C5 (amended): b58CheckDecode enforces both the expected prefix and the
4-byte double-SHA256 checksum — any decoded string whose checksum field
differs from the recomputed checksum is rejected, and every successful
decode is of the exact shape prefix ++ payload ++ checksum; but
ImportBLSecretKey enforces only the BLsk prefix (and the payload shape),
not the checksum. -/
theorem b58check_enforces_prefix_and_checksum :
    (∀ (pfx : List Nat) (s : List Char) (d : List Nat),
      base58Decode s = .ok d →
      pfx.length + 4 ≤ d.length →
      d.take pfx.length = pfx →
      d.drop (d.length - 4)
        ≠ (doubleSHA256 (pfx ++ (d.drop pfx.length).take (d.length - 4 - pfx.length))).take 4 →
      isError (b58CheckDecode pfx s) = true) ∧
    (∀ (pfx : List Nat) (s : List Char) (p : List Nat),
      b58CheckDecode pfx s = .ok p →
      base58Decode s = .ok (pfx ++ p ++ (doubleSHA256 (pfx ++ p)).take 4)) ∧
    (∀ (s : List Char) (sk : Nat),
      ImportBLSecretKey s = .ok sk →
      ∃ raw, base58Decode s = .ok raw ∧
        raw.take pfxBLSecretKey.length = pfxBLSecretKey) := by
  refine ⟨?_, ?_, ?_⟩
  · intro pfx s d hdec hlen hpfx hbad
    simp only [b58CheckDecode, hdec]
    rw [if_neg (by omega), if_neg (by rw [hpfx]; simp), if_pos hbad]
    rfl
  · intro pfx s p h
    cases hdec : base58Decode s with
    | error e =>
        simp only [b58CheckDecode, hdec] at h
        simp at h
    | ok d =>
        simp only [b58CheckDecode, hdec] at h
        by_cases h1 : d.length < pfx.length + 4
        · rw [if_pos h1] at h
          simp at h
        · rw [if_neg h1] at h
          by_cases h2 : d.take pfx.length ≠ pfx
          · rw [if_pos h2] at h
            simp at h
          · rw [if_neg h2] at h
            by_cases h3 : d.drop (d.length - 4)
                ≠ (doubleSHA256
                    (pfx ++ (d.drop pfx.length).take (d.length - 4 - pfx.length))).take 4
            · rw [if_pos h3] at h
              simp at h
            · rw [if_neg h3] at h
              simp only [Except.ok.injEq] at h
              rw [not_lt] at h1
              rw [Decidable.not_not] at h2 h3
              have e3 : (d.drop pfx.length).drop (d.length - 4 - pfx.length)
                  = d.drop (d.length - 4) := by
                rw [List.drop_drop]
                congr 1
                omega
              have hd : d = pfx ++ (p ++ (doubleSHA256 (pfx ++ p)).take 4) := by
                have e1 : d = d.take pfx.length ++ d.drop pfx.length :=
                  (List.take_append_drop _ d).symm
                have e2 : d.drop pfx.length
                    = (d.drop pfx.length).take (d.length - 4 - pfx.length)
                      ++ (d.drop pfx.length).drop (d.length - 4 - pfx.length) :=
                  (List.take_append_drop _ _).symm
                rw [e3, h3, h] at e2
                conv_lhs => rw [e1]
                rw [h2, e2]
              rw [hd]
              simp
  · intro s sk h
    cases hdec : base58Decode s with
    | error e =>
        simp only [ImportBLSecretKey, hdec] at h
        simp at h
    | ok raw =>
        simp only [ImportBLSecretKey, hdec] at h
        by_cases h1 : raw.length < 4 + pfxBLSecretKey.length
        · rw [if_pos h1] at h
          simp at h
        · rw [if_neg h1] at h
          by_cases h2 : raw.take pfxBLSecretKey.length ≠ pfxBLSecretKey
          · rw [if_pos h2] at h
            simp at h
          · rw [if_neg h2] at h
            rw [Decidable.not_not] at h2
            exact ⟨raw, rfl, h2⟩

set_option maxRecDepth 100000 in
/-- Concrete instances of the amended C5: the wrong-checksum string is
rejected by b58CheckDecode; the correct-checksum string decodes to the
canonical prefix ++ payload ++ checksum shape; the wrong-checksum string
still passes the prefix-only check of ImportBLSecretKey. -/
theorem b58check_enforces_prefix_and_checksum_witness :
    isError (b58CheckDecode pfxBLSecretKey badBLskStr) = true ∧
    base58Decode goodBLskStr =
      .ok (pfxBLSecretKey ++ blskPayloadEx
        ++ (doubleSHA256 (pfxBLSecretKey ++ blskPayloadEx)).take 4) ∧
    (∃ raw, base58Decode badBLskStr = .ok raw ∧
      raw.take pfxBLSecretKey.length = pfxBLSecretKey) :=
  ⟨b58check_enforces_prefix_and_checksum.1 pfxBLSecretKey badBLskStr
      (pfxBLSecretKey ++ blskPayloadEx ++ [0, 0, 0, 0])
      (by decide) (by decide) (by decide) (by decide),
   b58check_enforces_prefix_and_checksum.2.1 pfxBLSecretKey goodBLskStr blskPayloadEx
      (by decide),
   b58check_enforces_prefix_and_checksum.2.2 badBLskStr 1 (by decide)⟩

end Tezsign
